import Mathlib

/-!
Shallow embedding of the PC Manager server (`src/main.py`).

The persistent store holds two tables, `computers` and `commands`, modelled
as lists of records in insertion order (a `SELECT` without `ORDER BY` on
SQLite returns rows in rowid order, which is insertion order).  JSON
dictionaries (command payloads and result documents) are modelled as
association lists of string keys and string values.  Timestamps are `Nat`
and are supplied to handlers as an explicit `now` argument standing for
`datetime.utcnow()`.  HTTP exceptions become an explicit error type; every
handler returns the post-state of the store together with either an error
or its JSON response, so that "aborts before mutating state" is a provable
property rather than a modelling assumption.
-/

/-- A JSON dictionary, modelled as an association list. -/
abbrev Payload := List (String × String)

/-- A row of the `computers` table.  The `created_at` column (a server-side
default timestamp never read by any handler) is omitted. -/
structure Computer where
  pc_id : String
  room : String
  mac : Option String
  ip : Option String
  token : String
  status : String
  last_seen : Option Nat
  blocked : Bool
  deriving DecidableEq, Repr

/-- A row of the `commands` table.  The `created_at` column (never read by
any handler) is omitted; insertion order is the list order. -/
structure Command where
  id : Nat
  pc_id : String
  cmd_type : String
  payload : Payload
  status : String
  deriving DecidableEq, Repr

/-- The relational store.  `nextCmdId` models the SQLite integer primary
key auto-assignment for `commands`. -/
structure Store where
  computers : List Computer
  commands : List Command
  nextCmdId : Nat
  deriving DecidableEq, Repr

/-- The empty database created by `metadata.create_all`. -/
def Store.init : Store := ⟨[], [], 1⟩

/-- HTTP error outcomes.  `serverError` models an unhandled Python
exception (e.g. subscripting `None`). -/
inductive HErr where
  | notFound (msg : String)
  | forbidden (msg : String)
  | serverError
  deriving DecidableEq, Repr

/-- The HTTP status code of each error outcome. -/
def HErr.code : HErr → Nat
  | .notFound _ => 404
  | .forbidden _ => 403
  | .serverError => 500

/-- Request body of `POST /register`. -/
structure RegisterIn where
  pc_id : String
  room : String
  mac : Option String
  ip : Option String
  token : String
  deriving DecidableEq, Repr

/-- One element of the `commands` list in a poll response. -/
structure CmdOut where
  id : Nat
  cmd_type : String
  payload : Payload
  deriving DecidableEq, Repr

/-- The dictionary appended to `cmd_list` for a fetched command row. -/
def Command.toOut (c : Command) : CmdOut := ⟨c.id, c.cmd_type, c.payload⟩

/-- The `UPDATE computers ... WHERE pc_id = data.pc_id` of `register`,
applied to one row. -/
def registerUpdate (data : RegisterIn) (now : Nat) (c : Computer) : Computer :=
  if c.pc_id == data.pc_id then
    { c with ip := data.ip, mac := data.mac, token := data.token,
             last_seen := some now, status := "online", room := data.room }
  else c

/-- `POST /register` (src/main.py lines 73-89): upsert keyed on `pc_id`.
If a row exists, its ip/mac/token/last_seen/status/room are overwritten;
otherwise a fresh row is inserted with status online (`blocked` takes the
column default `False`). -/
def register (s : Store) (data : RegisterIn) (now : Nat) : Store × String :=
  match s.computers.find? (fun c => c.pc_id == data.pc_id) with
  | some _ =>
      ({ s with computers := s.computers.map (registerUpdate data now) },
       "updated")
  | none =>
      ({ s with computers := s.computers ++
          [{ pc_id := data.pc_id, room := data.room, mac := data.mac, ip := data.ip,
             token := data.token, status := "online", last_seen := some now,
             blocked := false }] },
       "registered")

/-- The `UPDATE computers SET last_seen, status = online WHERE pc_id` of
`poll`, applied to one row. -/
def onlineUpdate (pc_id : String) (now : Nat) (c : Computer) : Computer :=
  if c.pc_id == pc_id then { c with last_seen := some now, status := "online" } else c

/-- `UPDATE commands SET status = sent WHERE id = i`. -/
def markSentById (cmds : List Command) (i : Nat) : List Command :=
  cmds.map (fun c => if c.id == i then { c with status := "sent" } else c)

/-- `GET /poll/\x7bpc_id\x7d` (src/main.py lines 91-107): look up the agent
(404 if absent), compare the `X-Agent-Token` header with the stored token
(403 on mismatch; a missing header never matches), mark the agent online
with a fresh `last_seen`, fetch all of its pending commands, and mark each
fetched command sent while building the response list. -/
def poll (s : Store) (pc_id : String) (x_agent_token : Option String) (now : Nat) :
    Store × Except HErr (List CmdOut) :=
  match s.computers.find? (fun c => c.pc_id == pc_id) with
  | none => (s, .error (.notFound "pc not found"))
  | some row =>
    if x_agent_token ≠ some row.token then
      (s, .error (.forbidden "bad token"))
    else
      let computers' := s.computers.map (onlineUpdate pc_id now)
      let rows := s.commands.filter (fun c => c.pc_id == pc_id && c.status == "pending")
      let cmd_list := rows.map Command.toOut
      let commands' := rows.foldl (fun acc r => markSentById acc r.id) s.commands
      ({ s with computers := computers', commands := commands' }, .ok cmd_list)

/-- `POST /command` (src/main.py lines 109-118): check the admin key
(403; a missing header never matches), check the target agent exists
(404), then insert one pending command; `payload or \x7b\x7d` stores the
empty dictionary when the payload is omitted or empty. -/
def create_command (admin_key : String) (s : Store) (pc_id cmd_type : String)
    (payload : Option Payload) (x_admin_key : Option String) :
    Store × Except HErr String :=
  if x_admin_key ≠ some admin_key then
    (s, .error (.forbidden "bad admin key"))
  else
    match s.computers.find? (fun c => c.pc_id == pc_id) with
    | none => (s, .error (.notFound "pc not found"))
    | some _ =>
        ({ s with
            commands := s.commands ++
              [{ id := s.nextCmdId, pc_id := pc_id, cmd_type := cmd_type,
                 payload := payload.getD [], status := "pending" }],
            nextCmdId := s.nextCmdId + 1 },
         .ok "queued")

/-- The `UPDATE commands SET status = done WHERE id` of `report_result`,
applied to one row. -/
def doneUpdate (command_id : Nat) (c : Command) : Command :=
  if c.id == command_id then { c with status := "done" } else c

/-- `POST /report_result/\x7bcommand_id\x7d` (src/main.py lines 120-134):
look up the command (404), resolve its owning agent by `pc_id` — the code
subscripts the fetched row without a `None` check, so a missing owner is an
unhandled exception, modelled as `serverError` — compare tokens (403),
then set the command's status to done.  The `result` document is only
printed, never stored. -/
def report_result (s : Store) (command_id : Nat) (result : Payload)
    (x_agent_token : Option String) : Store × Except HErr Bool :=
  match s.commands.find? (fun c => c.id == command_id) with
  | none => (s, .error (.notFound "command not found"))
  | some row =>
    match s.computers.find? (fun c => c.pc_id == row.pc_id) with
    | none => (s, .error .serverError)
    | some pc =>
      if x_agent_token ≠ some pc.token then
        (s, .error (.forbidden "bad token"))
      else
        ({ s with commands := s.commands.map (doneUpdate command_id) }, .ok true)

/-- Contents of a file in the downloads directory: either raw uploaded
bytes or the JSON version descriptor written by `set_version`. -/
structure VersionData where
  version : String
  url : String
  deriving DecidableEq, Repr

inductive FileContent where
  | blob (data : String)
  | verdoc (v : VersionData)
  deriving DecidableEq, Repr

/-- The downloads directory: a map from file names to contents, modelled
as an association list in which the most recent write shadows earlier
entries (all observations go through `List.lookup`). -/
abbrev FS := List (String × FileContent)

/-- Writing a file (`write_bytes` / `write_text` overwrite semantics). -/
def fsWrite (fs : FS) (name : String) (c : FileContent) : FS := (name, c) :: fs

/-- `str.rstrip("/")`: drop all trailing slashes. -/
def rstripSlashes (s : String) : String :=
  ⟨(s.data.reverse.dropWhile (fun ch => ch == '/')).reverse⟩

/-- `get_base_url` (src/main.py lines 166-173): the `BASE_URL` environment
variable with trailing slashes stripped, else a hostname guess. -/
def get_base_url (envBase : Option String) (hostname : String) : String :=
  match envBase with
  | some base => rstripSlashes base
  | none => "http://" ++ hostname

/-- `POST /upload_binary` (src/main.py lines 144-152): admin-key check
(403), then write the uploaded bytes under the client-supplied name and
return the `/downloads` path. -/
def upload_binary (admin_key : String) (fs : FS) (filename data : String)
    (x_admin_key : Option String) : FS × Except HErr String :=
  if x_admin_key ≠ some admin_key then (fs, .error (.forbidden "bad admin key"))
  else (fsWrite fs filename (.blob data), .ok ("/downloads/" ++ filename))

/-- `POST /set_version` (src/main.py lines 154-164): admin-key check
(403), require the named file to exist (404), then overwrite
`version.json` with the descriptor and return it. -/
def set_version (admin_key : String) (envBase : Option String) (hostname : String)
    (fs : FS) (version filename : String) (x_admin_key : Option String) :
    FS × Except HErr VersionData :=
  if x_admin_key ≠ some admin_key then (fs, .error (.forbidden "bad admin key"))
  else
    match fs.lookup filename with
    | none => (fs, .error (.notFound "file not found"))
    | some _ =>
      let vd : VersionData :=
        ⟨version, get_base_url envBase hostname ++ "/downloads/" ++ filename⟩
      (fsWrite fs "version.json" (.verdoc vd), .ok vd)

/-- `GET /version` (src/main.py lines 136-142): read `version.json` if
present, else return the sentinel descriptor.  `json.loads` applied to a
raw uploaded blob that happens to be named `version.json` is modelled as a
parse failure; no claim exercises that corner. -/
def version (fs : FS) : Except HErr VersionData :=
  match fs.lookup "version.json" with
  | none => .ok ⟨"0.0.0", ""⟩
  | some (.verdoc v) => .ok v
  | some (.blob _) => .error .serverError

/-- One HTTP request against the store (the file-serving endpoints do not
touch the store). -/
inductive Invocation where
  | reg (data : RegisterIn) (now : Nat)
  | pol (pc_id : String) (tok : Option String) (now : Nat)
  | cre (admin_key pc_id cmd_type : String) (payload : Option Payload) (xk : Option String)
  | rep (cid : Nat) (result : Payload) (tok : Option String)

/-- The store state after handling one request. -/
def Invocation.run (s : Store) : Invocation → Store
  | .reg d n => (register s d n).1
  | .pol p t n => (poll s p t n).1
  | .cre ak p ct pl xk => (create_command ak s p ct pl xk).1
  | .rep cid r t => (report_result s cid r t).1

/-- Store states reachable from the empty database by any sequence of
requests. -/
inductive Reachable : Store → Prop where
  | init : Reachable Store.init
  | step (s : Store) (iv : Invocation) : Reachable s → Reachable (iv.run s)

/-- The net effect on one command row of the mark-sent loop in `poll`,
given the ids of the fetched rows. -/
def sentMark (ids : List Nat) (c : Command) : Command :=
  if c.id ∈ ids then { c with status := "sent" } else c

/-- Well-formedness of a store state: command statuses come from the
three-value lifecycle, command ids are bounded by the id counter and
pairwise distinct, every command references an existing agent, and at
most one agent row exists per `pc_id`. -/
structure StoreWF (s : Store) : Prop where
  statuses : ∀ c ∈ s.commands, c.status = "pending" ∨ c.status = "sent" ∨ c.status = "done"
  idBound : ∀ c ∈ s.commands, c.id < s.nextCmdId
  idsNodup : (s.commands.map (fun c => c.id)).Nodup
  refInt : ∀ c ∈ s.commands, ∃ pc ∈ s.computers, pc.pc_id = c.pc_id
  uniquePc : ∀ p : String, s.computers.countP (fun c => c.pc_id == p) ≤ 1

/-- The two edges of the command state machine literally drawn in the
spec: `pending --(poll delivers)--> sent --(result reported)--> done`. -/
def chainStep (a b : String) : Prop :=
  (a = "pending" ∧ b = "sent") ∨ (a = "sent" ∧ b = "done")

/-- A store holding one registered agent and one still-pending command,
reached by `register` then `create_command`. -/
def cexC2 : Store :=
  ⟨[⟨"lab01", "r1", none, none, "t1", "online", some 0, false⟩],
   [⟨1, "lab01", "reboot", [], "pending"⟩], 2⟩

/-! ### Helper lemmas -/

theorem find?_map_preserving {α : Type} (l : List α) (f : α → α) (p : α → Bool)
    (hf : ∀ a, p (f a) = p a) :
    (l.map f).find? p = (l.find? p).map f := by
  have hp : (p ∘ f) = p := funext fun a => hf a
  rw [List.find?_map, hp]

@[simp] theorem sentMark_id (ids : List Nat) (c : Command) :
    (sentMark ids c).id = c.id := by
  unfold sentMark; split <;> rfl

@[simp] theorem sentMark_pc_id (ids : List Nat) (c : Command) :
    (sentMark ids c).pc_id = c.pc_id := by
  unfold sentMark; split <;> rfl

theorem foldl_markSent_eq (rows cmds : List Command) :
    rows.foldl (fun acc r => markSentById acc r.id) cmds
      = cmds.map (sentMark (rows.map (fun r => r.id))) := by
  induction rows generalizing cmds with
  | nil =>
      simp only [List.foldl_nil, List.map_nil]
      refine (List.map_id'' (fun c => ?_) cmds).symm
      unfold sentMark
      simp
  | cons r rows ih =>
      rw [List.foldl_cons, ih, markSentById, List.map_map]
      apply List.map_congr_left
      intro c _
      by_cases h : c.id = r.id
      · simp [Function.comp, sentMark, h]
      · simp [Function.comp, sentMark, h]

theorem forall₂_map_self {α : Type} (R : α → α → Prop) (f : α → α) (l : List α)
    (h : ∀ a ∈ l, R a (f a)) : List.Forall₂ R l (l.map f) := by
  induction l with
  | nil => exact List.Forall₂.nil
  | cons a l ih =>
      exact List.Forall₂.cons (h a (by simp))
        (ih (fun b hb => h b (List.mem_cons_of_mem a hb)))

theorem countP_map_pc_id (l : List Computer) (f : Computer → Computer)
    (hf : ∀ c, (f c).pc_id = c.pc_id) (p : String) :
    (l.map f).countP (fun c => c.pc_id == p) = l.countP (fun c => c.pc_id == p) := by
  rw [List.countP_map]
  congr 1
  funext c
  simp [Function.comp, hf]

@[simp] theorem registerUpdate_pc_id (d : RegisterIn) (n : Nat) (c : Computer) :
    (registerUpdate d n c).pc_id = c.pc_id := by
  unfold registerUpdate; split <;> rfl

@[simp] theorem onlineUpdate_pc_id (p : String) (n : Nat) (c : Computer) :
    (onlineUpdate p n c).pc_id = c.pc_id := by
  unfold onlineUpdate; split <;> rfl

@[simp] theorem onlineUpdate_token (p : String) (n : Nat) (c : Computer) :
    (onlineUpdate p n c).token = c.token := by
  unfold onlineUpdate; split <;> rfl

@[simp] theorem doneUpdate_id (i : Nat) (c : Command) :
    (doneUpdate i c).id = c.id := by
  unfold doneUpdate; split <;> rfl

@[simp] theorem doneUpdate_pc_id (i : Nat) (c : Command) :
    (doneUpdate i c).pc_id = c.pc_id := by
  unfold doneUpdate; split <;> rfl

theorem countP_pc_le_one_map (l : List Computer) (f : Computer → Computer)
    (hf : ∀ c, (f c).pc_id = c.pc_id)
    (h : ∀ p : String, l.countP (fun c => c.pc_id == p) ≤ 1) :
    ∀ p : String, (l.map f).countP (fun c => c.pc_id == p) ≤ 1 := by
  intro p
  rw [countP_map_pc_id l f hf p]
  exact h p

theorem refInt_map_computers (cs : List Computer) (f : Computer → Computer)
    (hf : ∀ c, (f c).pc_id = c.pc_id) (cmds : List Command)
    (h : ∀ c ∈ cmds, ∃ pc ∈ cs, pc.pc_id = c.pc_id) :
    ∀ c ∈ cmds, ∃ pc ∈ cs.map f, pc.pc_id = c.pc_id := by
  intro c hc
  obtain ⟨pc, hpc, e⟩ := h c hc
  exact ⟨f pc, List.mem_map_of_mem f hpc, by rw [hf]; exact e⟩

theorem map_cmd_id_comp (g : Command → Command) (hid : ∀ c, (g c).id = c.id)
    (l : List Command) :
    (l.map g).map (fun c => c.id) = l.map (fun c => c.id) := by
  rw [List.map_map]
  apply List.map_congr_left
  intro a _
  exact hid a

theorem wf_register (s : Store) (data : RegisterIn) (now : Nat) (h : StoreWF s) :
    StoreWF (register s data now).1 := by
  cases hf : s.computers.find? (fun c => c.pc_id == data.pc_id) with
  | some row =>
      simp only [register, hf]
      exact ⟨h.statuses, h.idBound, h.idsNodup,
        refInt_map_computers _ _ (registerUpdate_pc_id data now) _ h.refInt,
        countP_pc_le_one_map _ _ (registerUpdate_pc_id data now) h.uniquePc⟩
  | none =>
      simp only [register, hf]
      refine ⟨h.statuses, h.idBound, h.idsNodup, ?_, ?_⟩
      · intro c hc
        obtain ⟨pc, hpc, e⟩ := h.refInt c hc
        exact ⟨pc, List.mem_append_left _ hpc, e⟩
      · intro p
        have h0 := h.uniquePc p
        rw [List.countP_append]
        by_cases hp : data.pc_id = p
        · have hz : s.computers.countP (fun c => c.pc_id == p) = 0 := by
            rw [List.countP_eq_zero]
            intro c hc
            have := List.find?_eq_none.mp hf c hc
            simpa [hp] using this
          simp [hz, List.countP_cons, hp]
        · have h1 : List.countP (fun c => c.pc_id == p)
              [({ pc_id := data.pc_id, room := data.room, mac := data.mac, ip := data.ip,
                  token := data.token, status := "online", last_seen := some now,
                  blocked := false } : Computer)] = 0 := by
            simp [List.countP_cons, hp]
          omega

theorem wf_poll (s : Store) (pid : String) (tok : Option String) (now : Nat)
    (h : StoreWF s) : StoreWF (poll s pid tok now).1 := by
  cases hf : s.computers.find? (fun c => c.pc_id == pid) with
  | none => simpa only [poll, hf] using h
  | some row =>
    by_cases htok : tok ≠ some row.token
    · simp only [poll, hf, if_pos htok]
      exact h
    · simp only [poll, hf, if_neg htok]
      rw [foldl_markSent_eq]
      refine ⟨?_, ?_, ?_, ?_, ?_⟩
      · intro c hc
        obtain ⟨c₀, hc₀, rfl⟩ := List.mem_map.1 hc
        unfold sentMark
        split
        · right; left; rfl
        · exact h.statuses c₀ hc₀
      · intro c hc
        obtain ⟨c₀, hc₀, rfl⟩ := List.mem_map.1 hc
        rw [sentMark_id]
        exact h.idBound c₀ hc₀
      · rw [map_cmd_id_comp _ (sentMark_id _)]
        exact h.idsNodup
      · intro c hc
        obtain ⟨c₀, hc₀, rfl⟩ := List.mem_map.1 hc
        obtain ⟨pc, hpc, e⟩ := h.refInt c₀ hc₀
        exact ⟨onlineUpdate pid now pc, List.mem_map_of_mem _ hpc, by simp [e]⟩
      · exact countP_pc_le_one_map _ _ (onlineUpdate_pc_id pid now) h.uniquePc

theorem wf_create (ak : String) (s : Store) (pid ct : String) (pl : Option Payload)
    (xk : Option String) (h : StoreWF s) :
    StoreWF (create_command ak s pid ct pl xk).1 := by
  by_cases hk : xk ≠ some ak
  · simp only [create_command, if_pos hk]
    exact h
  · cases hf : s.computers.find? (fun c => c.pc_id == pid) with
    | none =>
        simp only [create_command, if_neg hk, hf]
        exact h
    | some row =>
      simp only [create_command, if_neg hk, hf]
      refine ⟨?_, ?_, ?_, ?_, h.uniquePc⟩
      · intro c hc
        rcases List.mem_append.1 hc with hc | hc
        · exact h.statuses c hc
        · left
          simp only [List.mem_singleton] at hc
          rw [hc]
      · intro c hc
        rcases List.mem_append.1 hc with hc | hc
        · exact Nat.lt_succ_of_lt (h.idBound c hc)
        · simp only [List.mem_singleton] at hc
          rw [hc]
          exact Nat.lt_succ_self _
      · rw [List.map_append]
        refine h.idsNodup.append (List.nodup_singleton _) ?_
        intro x hx hx'
        simp only [List.map_cons, List.map_nil, List.mem_singleton] at hx'
        obtain ⟨c, hc, e⟩ := List.mem_map.1 hx
        have := h.idBound c hc
        omega
      · intro c hc
        rcases List.mem_append.1 hc with hc | hc
        · exact h.refInt c hc
        · simp only [List.mem_singleton] at hc
          refine ⟨row, List.mem_of_find?_eq_some hf, ?_⟩
          have := List.find?_some hf
          rw [hc]
          simpa using this

theorem wf_report (s : Store) (cid : Nat) (r : Payload) (tok : Option String)
    (h : StoreWF s) : StoreWF (report_result s cid r tok).1 := by
  cases hf : s.commands.find? (fun c => c.id == cid) with
  | none =>
      simp only [report_result, hf]
      exact h
  | some row =>
    cases hpc : s.computers.find? (fun c => c.pc_id == row.pc_id) with
    | none =>
        simp only [report_result, hf, hpc]
        exact h
    | some pc =>
      by_cases ht : tok ≠ some pc.token
      · simp only [report_result, hf, hpc, if_pos ht]
        exact h
      · simp only [report_result, hf, hpc, if_neg ht]
        refine ⟨?_, ?_, ?_, ?_, h.uniquePc⟩
        · intro c hc
          obtain ⟨c₀, hc₀, rfl⟩ := List.mem_map.1 hc
          unfold doneUpdate
          split
          · right; right; rfl
          · exact h.statuses c₀ hc₀
        · intro c hc
          obtain ⟨c₀, hc₀, rfl⟩ := List.mem_map.1 hc
          rw [doneUpdate_id]
          exact h.idBound c₀ hc₀
        · rw [map_cmd_id_comp _ (doneUpdate_id _)]
          exact h.idsNodup
        · intro c hc
          obtain ⟨c₀, hc₀, rfl⟩ := List.mem_map.1 hc
          obtain ⟨pc', hpc', e⟩ := h.refInt c₀ hc₀
          exact ⟨pc', hpc', by simp [e]⟩

theorem reachable_wf (s : Store) (hr : Reachable s) : StoreWF s := by
  induction hr with
  | init =>
      refine ⟨?_, ?_, ?_, ?_, ?_⟩ <;> simp [Store.init]
  | step s iv hs ih =>
      cases iv with
      | reg d n => exact wf_register s d n ih
      | pol p t n => exact wf_poll s p t n ih
      | cre ak p ct pl xk => exact wf_create ak s p ct pl xk ih
      | rep cid r t => exact wf_report s cid r t ih

/-! ### Claims -/

/-- C3: for an existing agent `A` and any supplied token differing from
`A`'s stored token, `poll A` returns forbidden (403) and leaves the entire
store unchanged: no command row's status changes and `A`'s
status/last_seen are not updated. -/
theorem C3_poll_wrong_token_unchanged (s : Store) (A : String) (row : Computer)
    (t' : Option String) (now : Nat)
    (hfind : s.computers.find? (fun c => c.pc_id == A) = some row)
    (hne : t' ≠ some row.token) :
    poll s A t' now = (s, .error (.forbidden "bad token"))
    ∧ (HErr.forbidden "bad token").code = 403 := by
  constructor
  · simp only [poll, hfind, if_pos hne]
  · rfl

theorem C3_witness :
    poll ⟨[⟨"lab01", "r1", none, none, "t1", "online", none, false⟩], [], 1⟩
        "lab01" (some "wrong") 0
      = (⟨[⟨"lab01", "r1", none, none, "t1", "online", none, false⟩], [], 1⟩,
         .error (.forbidden "bad token"))
    ∧ (HErr.forbidden "bad token").code = 403 :=
  C3_poll_wrong_token_unchanged
    ⟨[⟨"lab01", "r1", none, none, "t1", "online", none, false⟩], [], 1⟩
    "lab01" ⟨"lab01", "r1", none, none, "t1", "online", none, false⟩
    (some "wrong") 0 (by decide) (by decide)

/-- C4: for an existing command whose owning agent exists, a
`report_result` call whose token differs from the owner's stored token
returns forbidden (403) and leaves the store — in particular the command's
status — unchanged. -/
theorem C4_report_wrong_token_unchanged (s : Store) (cid : Nat) (row : Command)
    (pc : Computer) (tok : Option String) (r : Payload)
    (hc : s.commands.find? (fun c => c.id == cid) = some row)
    (hpc : s.computers.find? (fun c => c.pc_id == row.pc_id) = some pc)
    (hne : tok ≠ some pc.token) :
    report_result s cid r tok = (s, .error (.forbidden "bad token"))
    ∧ (HErr.forbidden "bad token").code = 403 := by
  constructor
  · simp only [report_result, hc, hpc, if_pos hne]
  · rfl

theorem C4_witness :
    report_result ⟨[⟨"lab01", "r1", none, none, "t1", "online", none, false⟩],
        [⟨1, "lab01", "reboot", [], "sent"⟩], 2⟩ 1 [] (some "t2")
      = (⟨[⟨"lab01", "r1", none, none, "t1", "online", none, false⟩],
          [⟨1, "lab01", "reboot", [], "sent"⟩], 2⟩,
         .error (.forbidden "bad token"))
    ∧ (HErr.forbidden "bad token").code = 403 :=
  C4_report_wrong_token_unchanged
    ⟨[⟨"lab01", "r1", none, none, "t1", "online", none, false⟩],
     [⟨1, "lab01", "reboot", [], "sent"⟩], 2⟩
    1 ⟨1, "lab01", "reboot", [], "sent"⟩
    ⟨"lab01", "r1", none, none, "t1", "online", none, false⟩
    (some "t2") [] (by decide) (by decide) (by decide)

/-- C8: for an existing command with its owner's valid token, two
`report_result` calls that differ only in the reported result document
produce identical store states and identical responses: the result
document is never persisted and influences no stored field. -/
theorem C8_result_document_ignored (s : Store) (cid : Nat) (row : Command)
    (pc : Computer) (r1 r2 : Payload)
    (hc : s.commands.find? (fun c => c.id == cid) = some row)
    (hpc : s.computers.find? (fun c => c.pc_id == row.pc_id) = some pc) :
    report_result s cid r1 (some pc.token) = report_result s cid r2 (some pc.token) := rfl

theorem C8_witness :
    report_result ⟨[⟨"lab01", "r1", none, none, "t1", "online", none, false⟩],
        [⟨1, "lab01", "reboot", [], "sent"⟩], 2⟩ 1 [("exit", "0")] (some "t1")
      = report_result ⟨[⟨"lab01", "r1", none, none, "t1", "online", none, false⟩],
          [⟨1, "lab01", "reboot", [], "sent"⟩], 2⟩ 1 [("exit", "1")] (some "t1") :=
  C8_result_document_ignored
    ⟨[⟨"lab01", "r1", none, none, "t1", "online", none, false⟩],
     [⟨1, "lab01", "reboot", [], "sent"⟩], 2⟩
    1 ⟨1, "lab01", "reboot", [], "sent"⟩
    ⟨"lab01", "r1", none, none, "t1", "online", none, false⟩
    [("exit", "0")] [("exit", "1")] (by decide) (by decide)

/-- C9: in every reachable store state every command row's `pc_id` refers
to an existing `computers` row, and consequently `report_result` never
hits the unguarded `pc["token"]` dereference (modelled as a 500 server
error). -/
theorem C9_referential_integrity (s : Store) (hr : Reachable s) :
    (∀ cmd ∈ s.commands, ∃ pc ∈ s.computers, pc.pc_id = cmd.pc_id)
    ∧ (∀ (cid : Nat) (r : Payload) (tok : Option String),
        (report_result s cid r tok).2 ≠ .error .serverError) := by
  have h := reachable_wf s hr
  refine ⟨h.refInt, ?_⟩
  intro cid r tok
  cases hc : s.commands.find? (fun c => c.id == cid) with
  | none => simp [report_result, hc]
  | some row =>
    have hmem := List.mem_of_find?_eq_some hc
    obtain ⟨pc, hpc, e⟩ := h.refInt row hmem
    cases hp : s.computers.find? (fun c => c.pc_id == row.pc_id) with
    | none =>
        exfalso
        have hnone := List.find?_eq_none.mp hp pc hpc
        simp [e] at hnone
    | some pc' =>
      by_cases ht : tok ≠ some pc'.token
      · simp [report_result, hc, hp, if_pos ht]
      · simp [report_result, hc, hp, if_neg ht]

theorem C9_witness :
    (∀ cmd ∈ Store.init.commands, ∃ pc ∈ Store.init.computers, pc.pc_id = cmd.pc_id)
    ∧ (∀ (cid : Nat) (r : Payload) (tok : Option String),
        (report_result Store.init cid r tok).2 ≠ .error .serverError) :=
  C9_referential_integrity Store.init Reachable.init

/-- C6: `register` is an upsert keyed on `pc_id`.  If no row with that
`pc_id` exists, exactly one new row with status online is appended and the
response is "registered"; if one exists, its token/ip/mac/room/last_seen
fields are overwritten (token replaced by the supplied one), status is set
online, the response is "updated", and exactly one row with that `pc_id`
remains. -/
theorem C6_register_upsert (s : Store) (hr : Reachable s) (data : RegisterIn)
    (now : Nat) :
    (s.computers.find? (fun c => c.pc_id == data.pc_id) = none →
      register s data now =
        ({ s with computers := s.computers ++
            [{ pc_id := data.pc_id, room := data.room, mac := data.mac, ip := data.ip,
               token := data.token, status := "online", last_seen := some now,
               blocked := false }] }, "registered")
      ∧ (register s data now).1.computers.countP (fun c => c.pc_id == data.pc_id) = 1)
    ∧ (∀ row, s.computers.find? (fun c => c.pc_id == data.pc_id) = some row →
        register s data now =
          ({ s with computers := s.computers.map (registerUpdate data now) }, "updated")
        ∧ (register s data now).1.computers.countP (fun c => c.pc_id == data.pc_id) = 1) := by
  have hwf := reachable_wf s hr
  constructor
  · intro hf
    have e : register s data now =
        ({ s with computers := s.computers ++
            [{ pc_id := data.pc_id, room := data.room, mac := data.mac, ip := data.ip,
               token := data.token, status := "online", last_seen := some now,
               blocked := false }] }, "registered") := by
      simp only [register, hf]
    refine ⟨e, ?_⟩
    rw [e]
    have hz : s.computers.countP (fun c => c.pc_id == data.pc_id) = 0 := by
      rw [List.countP_eq_zero]
      intro c hc
      exact List.find?_eq_none.mp hf c hc
    rw [List.countP_append, hz]
    simp [List.countP_cons]
  · intro row hf
    have e : register s data now =
        ({ s with computers := s.computers.map (registerUpdate data now) }, "updated") := by
      simp only [register, hf]
    refine ⟨e, ?_⟩
    rw [e]
    have hle := hwf.uniquePc data.pc_id
    have hpos : 0 < s.computers.countP (fun c => c.pc_id == data.pc_id) := by
      rw [List.countP_pos_iff]
      have hrow := List.find?_some hf
      exact ⟨row, List.mem_of_find?_eq_some hf, hrow⟩
    have hcnt : s.computers.countP (fun c => c.pc_id == data.pc_id) = 1 := by omega
    show (s.computers.map (registerUpdate data now)).countP (fun c => c.pc_id == data.pc_id) = 1
    rw [countP_map_pc_id _ _ (registerUpdate_pc_id data now) data.pc_id]
    exact hcnt

theorem C6_witness :
    register Store.init ⟨"lab01", "r1", none, none, "t1"⟩ 0
      = ({ Store.init with computers := Store.init.computers ++
          [⟨"lab01", "r1", none, none, "t1", "online", some 0, false⟩] }, "registered")
    ∧ (register Store.init ⟨"lab01", "r1", none, none, "t1"⟩ 0).1.computers.countP
        (fun c => c.pc_id == "lab01") = 1 :=
  (C6_register_upsert Store.init Reachable.init ⟨"lab01", "r1", none, none, "t1"⟩ 0).1 rfl

/-- C7: `set_version` for a filename not present in the downloads
directory returns not-found (404) and publishes nothing; after
`upload_binary` has stored the file, `set_version` succeeds and a
subsequent `GET /version` returns a descriptor whose version is the one
set and whose url points at `/downloads/` plus the filename. -/
theorem C7_set_version_round_trip (fs : FS) (f ak v : String) (env : Option String)
    (host : String) :
    (fs.lookup f = none →
       set_version ak env host fs v f (some ak) = (fs, .error (.notFound "file not found"))
       ∧ (HErr.notFound "file not found").code = 404)
    ∧ (∀ data : String,
        (set_version ak env host (upload_binary ak fs f data (some ak)).1 v f (some ak)).2
           = .ok ⟨v, get_base_url env host ++ "/downloads/" ++ f⟩
        ∧ version (set_version ak env host (upload_binary ak fs f data (some ak)).1
              v f (some ak)).1
           = .ok ⟨v, get_base_url env host ++ "/downloads/" ++ f⟩) := by
  have hak : ¬ (some ak ≠ some ak) := by simp
  constructor
  · intro hnone
    constructor
    · simp only [set_version, if_neg hak, hnone]
    · rfl
  · intro data
    have hub : (upload_binary ak fs f data (some ak)).1 = fsWrite fs f (.blob data) := by
      simp only [upload_binary, if_neg hak]
    rw [hub]
    have hlk : (fsWrite fs f (.blob data)).lookup f = some (.blob data) := by
      simp [fsWrite, List.lookup]
    constructor
    · simp only [set_version, if_neg hak, hlk]
    · simp only [set_version, if_neg hak, hlk]
      simp [version, fsWrite, List.lookup]

theorem C7_witness :
    (set_version "k" (some "https://pc.example/") "h" [] "1.2.0" "agent.exe" (some "k")
       = ([], .error (.notFound "file not found"))
     ∧ (HErr.notFound "file not found").code = 404)
    ∧ ((set_version "k" (some "https://pc.example/") "h"
          (upload_binary "k" [] "agent.exe" "MZ" (some "k")).1 "1.2.0" "agent.exe"
          (some "k")).2
         = .ok ⟨"1.2.0",
             get_base_url (some "https://pc.example/") "h" ++ "/downloads/" ++ "agent.exe"⟩
       ∧ version (set_version "k" (some "https://pc.example/") "h"
            (upload_binary "k" [] "agent.exe" "MZ" (some "k")).1 "1.2.0" "agent.exe"
            (some "k")).1
         = .ok ⟨"1.2.0",
             get_base_url (some "https://pc.example/") "h" ++ "/downloads/" ++ "agent.exe"⟩) :=
  ⟨(C7_set_version_round_trip [] "agent.exe" "k" "1.2.0" (some "https://pc.example/") "h").1
      rfl,
   (C7_set_version_round_trip [] "agent.exe" "k" "1.2.0" (some "https://pc.example/") "h").2
      "MZ"⟩

/-- C10: `report_result` with the correct owner token is idempotent: the
first call answers ok and marks the command done, and a second identical
call answers ok again and leaves the store exactly as after the first
call. -/
theorem C10_report_result_idempotent (s : Store) (cid : Nat) (row : Command)
    (pc : Computer) (r : Payload)
    (hc : s.commands.find? (fun c => c.id == cid) = some row)
    (hpc : s.computers.find? (fun c => c.pc_id == row.pc_id) = some pc) :
    (report_result s cid r (some pc.token)).2 = .ok true
    ∧ report_result (report_result s cid r (some pc.token)).1 cid r (some pc.token)
        = ((report_result s cid r (some pc.token)).1, .ok true) := by
  have hne : ¬ (some pc.token ≠ some pc.token) := by simp
  have e1 : report_result s cid r (some pc.token)
      = ({ s with commands := s.commands.map (doneUpdate cid) }, .ok true) := by
    simp only [report_result, hc, hpc, if_neg hne]
  refine ⟨by rw [e1], ?_⟩
  rw [e1]
  have hc1 : (s.commands.map (doneUpdate cid)).find? (fun c => c.id == cid)
      = some (doneUpdate cid row) := by
    rw [find?_map_preserving _ _ _ (fun a => by rw [doneUpdate_id]), hc]
    rfl
  have hpc1 : s.computers.find? (fun c => c.pc_id == (doneUpdate cid row).pc_id)
      = some pc := by
    simp only [doneUpdate_pc_id]
    exact hpc
  have hidem : (s.commands.map (doneUpdate cid)).map (doneUpdate cid)
      = s.commands.map (doneUpdate cid) := by
    rw [List.map_map]
    apply List.map_congr_left
    intro a _
    show doneUpdate cid (doneUpdate cid a) = doneUpdate cid a
    unfold doneUpdate
    by_cases h : a.id = cid
    · simp [h]
    · simp [h]
  simp only [report_result, hc1, hpc1, if_neg hne, hidem]

theorem C10_witness :
    (report_result ⟨[⟨"lab01", "r1", none, none, "t1", "online", none, false⟩],
        [⟨1, "lab01", "reboot", [], "sent"⟩], 2⟩ 1 [] (some "t1")).2 = .ok true
    ∧ report_result (report_result ⟨[⟨"lab01", "r1", none, none, "t1", "online", none, false⟩],
          [⟨1, "lab01", "reboot", [], "sent"⟩], 2⟩ 1 [] (some "t1")).1 1 [] (some "t1")
        = ((report_result ⟨[⟨"lab01", "r1", none, none, "t1", "online", none, false⟩],
            [⟨1, "lab01", "reboot", [], "sent"⟩], 2⟩ 1 [] (some "t1")).1, .ok true) :=
  C10_report_result_idempotent
    ⟨[⟨"lab01", "r1", none, none, "t1", "online", none, false⟩],
     [⟨1, "lab01", "reboot", [], "sent"⟩], 2⟩
    1 ⟨1, "lab01", "reboot", [], "sent"⟩
    ⟨"lab01", "r1", none, none, "t1", "online", none, false⟩
    [] (by decide) (by decide)

theorem poll_success_eq (s : Store) (A : String) (row : Computer) (now : Nat)
    (hfind : s.computers.find? (fun c => c.pc_id == A) = some row) :
    poll s A (some row.token) now =
      ({ s with
          computers := s.computers.map (onlineUpdate A now),
          commands := s.commands.map (sentMark
            ((s.commands.filter (fun c => c.pc_id == A && c.status == "pending")).map
              (fun r => r.id))) },
       .ok ((s.commands.filter (fun c => c.pc_id == A && c.status == "pending")).map
          Command.toOut)) := by
  have hne : ¬ (some row.token ≠ some row.token) := by simp
  simp only [poll, hfind, if_neg hne]
  rw [foldl_markSent_eq]

/-- C5: a successful poll for agent `A` sets `A`'s status online and
refreshes `last_seen`, returns exactly `A`'s pending commands in insertion
order, and marks each returned command sent in the store. -/
theorem C5_poll_success (s : Store) (A : String) (row : Computer) (now : Nat)
    (hfind : s.computers.find? (fun c => c.pc_id == A) = some row) :
    poll s A (some row.token) now =
      ({ s with
          computers := s.computers.map (onlineUpdate A now),
          commands := s.commands.map (sentMark
            ((s.commands.filter (fun c => c.pc_id == A && c.status == "pending")).map
              (fun r => r.id))) },
       .ok ((s.commands.filter (fun c => c.pc_id == A && c.status == "pending")).map
          Command.toOut)) :=
  poll_success_eq s A row now hfind

theorem C5_witness :
    poll ⟨[⟨"lab01", "r1", none, none, "t1", "online", none, false⟩],
        [⟨1, "lab01", "reboot", [], "pending"⟩], 2⟩ "lab01" (some "t1") 5
      = (⟨([⟨"lab01", "r1", none, none, "t1", "online", none, false⟩] :
              List Computer).map (onlineUpdate "lab01" 5),
          ([⟨1, "lab01", "reboot", [], "pending"⟩] : List Command).map (sentMark
            ((([⟨1, "lab01", "reboot", [], "pending"⟩] : List Command).filter
                (fun c => c.pc_id == "lab01" && c.status == "pending")).map
              (fun r => r.id))), 2⟩,
         .ok ((([⟨1, "lab01", "reboot", [], "pending"⟩] : List Command).filter
              (fun c => c.pc_id == "lab01" && c.status == "pending")).map
            Command.toOut)) :=
  C5_poll_success
    ⟨[⟨"lab01", "r1", none, none, "t1", "online", none, false⟩],
     [⟨1, "lab01", "reboot", [], "pending"⟩], 2⟩
    "lab01" ⟨"lab01", "r1", none, none, "t1", "online", none, false⟩ 5 (by decide)

/-- C1: for a registered agent `A` with token `t`, after a successful
`create_command A T P`, a poll for `A` with `t` answers with a command of
type `T` and payload `P` whose stored status becomes sent, and an
immediately following second poll for `A` returns an empty command
list. -/
theorem C1_create_then_poll_delivers (s : Store) (A : String) (row : Computer)
    (ak T : String) (P : Payload) (n₁ n₂ : Nat)
    (hfind : s.computers.find? (fun c => c.pc_id == A) = some row) :
    ∃ s₁ s₂ out,
      create_command ak s A T (some P) (some ak) = (s₁, .ok "queued")
      ∧ poll s₁ A (some row.token) n₁ = (s₂, .ok out)
      ∧ (∃ o ∈ out, o.cmd_type = T ∧ o.payload = P
          ∧ ∃ c ∈ s₂.commands, c.id = o.id ∧ c.cmd_type = T ∧ c.payload = P
              ∧ c.status = "sent")
      ∧ (poll s₂ A (some row.token) n₂).2 = .ok [] := by
  have hak : ¬ (some ak ≠ some ak) := by simp
  obtain ⟨s₁, e1, h1comp, h1cmds⟩ :
      ∃ s₁, create_command ak s A T (some P) (some ak) = (s₁, .ok "queued")
        ∧ s₁.computers = s.computers
        ∧ s₁.commands = s.commands ++ [⟨s.nextCmdId, A, T, P, "pending"⟩] := by
    refine ⟨Store.mk s.computers
      (s.commands ++ [⟨s.nextCmdId, A, T, P, "pending"⟩]) (s.nextCmdId + 1), ?_, rfl, rfl⟩
    simp only [create_command, if_neg hak, hfind, Option.getD_some]
  obtain ⟨s₂, e2, h2comp, h2cmds⟩ :
      ∃ s₂, poll s₁ A (some row.token) n₁
          = (s₂, .ok ((s₁.commands.filter
                (fun c => c.pc_id == A && c.status == "pending")).map Command.toOut))
        ∧ s₂.computers = s₁.computers.map (onlineUpdate A n₁)
        ∧ s₂.commands = s₁.commands.map (sentMark
            ((s₁.commands.filter (fun c => c.pc_id == A && c.status == "pending")).map
              (fun r => r.id))) := by
    have hfind₁ : s₁.computers.find? (fun c => c.pc_id == A) = some row := by
      rw [h1comp]
      exact hfind
    exact ⟨_, poll_success_eq s₁ A row n₁ hfind₁, rfl, rfl⟩
  refine ⟨s₁, s₂, _, e1, e2, ?_, ?_⟩
  · have hnewmem : (⟨s.nextCmdId, A, T, P, "pending"⟩ : Command)
        ∈ s₁.commands.filter (fun c => c.pc_id == A && c.status == "pending") := by
      rw [List.mem_filter]
      refine ⟨?_, by simp⟩
      rw [h1cmds]
      exact List.mem_append_right _ (List.mem_singleton_self _)
    refine ⟨Command.toOut ⟨s.nextCmdId, A, T, P, "pending"⟩,
      List.mem_map_of_mem Command.toOut hnewmem, rfl, rfl, ?_⟩
    have hidmem : (⟨s.nextCmdId, A, T, P, "pending"⟩ : Command).id
        ∈ (s₁.commands.filter (fun c => c.pc_id == A && c.status == "pending")).map
            (fun r => r.id) :=
      List.mem_map_of_mem _ hnewmem
    have hsm : sentMark
          ((s₁.commands.filter (fun c => c.pc_id == A && c.status == "pending")).map
            (fun r => r.id)) ⟨s.nextCmdId, A, T, P, "pending"⟩
        = ⟨s.nextCmdId, A, T, P, "sent"⟩ := by
      unfold sentMark
      rw [if_pos hidmem]
    refine ⟨⟨s.nextCmdId, A, T, P, "sent"⟩, ?_, rfl, rfl, rfl, rfl⟩
    rw [h2cmds, ← hsm]
    apply List.mem_map_of_mem
    rw [h1cmds]
    exact List.mem_append_right _ (List.mem_singleton_self _)
  · have hfind₂ : s₂.computers.find? (fun c => c.pc_id == A)
        = some (onlineUpdate A n₁ row) := by
      rw [h2comp, h1comp,
        find?_map_preserving _ _ _ (fun c => by rw [onlineUpdate_pc_id]), hfind]
      rfl
    have e3 := poll_success_eq s₂ A (onlineUpdate A n₁ row) n₂ hfind₂
    rw [onlineUpdate_token] at e3
    rw [e3]
    have hempty : s₂.commands.filter (fun c => c.pc_id == A && c.status == "pending")
        = [] := by
      rw [List.filter_eq_nil_iff]
      intro c hcmem
      rw [h2cmds] at hcmem
      obtain ⟨c₀, hc₀, rfl⟩ := List.mem_map.1 hcmem
      by_cases hin : c₀.id ∈ (s₁.commands.filter
          (fun c => c.pc_id == A && c.status == "pending")).map (fun r => r.id)
      · unfold sentMark
        rw [if_pos hin]
        simp
      · unfold sentMark
        rw [if_neg hin]
        intro hp
        exact hin (List.mem_map_of_mem _ (List.mem_filter.2 ⟨hc₀, hp⟩))
    rw [hempty]
    rfl

theorem C1_witness :
    ∃ s₁ s₂ out,
      create_command "k" ⟨[⟨"lab01", "r1", none, none, "t1", "online", none, false⟩], [], 1⟩
          "lab01" "reboot" (some [("when", "now")]) (some "k") = (s₁, .ok "queued")
      ∧ poll s₁ "lab01" (some "t1") 1 = (s₂, .ok out)
      ∧ (∃ o ∈ out, o.cmd_type = "reboot" ∧ o.payload = [("when", "now")]
          ∧ ∃ c ∈ s₂.commands, c.id = o.id ∧ c.cmd_type = "reboot"
              ∧ c.payload = [("when", "now")] ∧ c.status = "sent")
      ∧ (poll s₂ "lab01" (some "t1") 2).2 = .ok [] :=
  C1_create_then_poll_delivers
    ⟨[⟨"lab01", "r1", none, none, "t1", "online", none, false⟩], [], 1⟩
    "lab01" ⟨"lab01", "r1", none, none, "t1", "online", none, false⟩
    "k" "reboot" [("when", "now")] 1 2 (by decide)

/-- C2 (counterexample): from the reachable store `cexC2`, whose only
command is still pending, `report_result` with the owner's token succeeds
and moves that command directly from pending to done — a status change that
is neither of the two chain edges pending→sent (poll) and sent→done
(report), so the claimed state machine is violated. -/
theorem C2_counterexample :
    Reachable cexC2
    ∧ cexC2.commands.map (fun c => c.status) = ["pending"]
    ∧ (report_result cexC2 1 [] (some "t1")).1.commands.map (fun c => c.status) = ["done"]
    ∧ (report_result cexC2 1 [] (some "t1")).2 = .ok true
    ∧ ¬ chainStep "pending" "done" := by
  refine ⟨?_, by decide, by decide, by rfl, ?_⟩
  · have h1 := Reachable.step Store.init
      (Invocation.reg ⟨"lab01", "r1", none, none, "t1"⟩ 0) Reachable.init
    have h2 := Reachable.step _
      (Invocation.cre "k" "lab01" "reboot" none (some "k")) h1
    have e : (Invocation.cre "k" "lab01" "reboot" none (some "k")).run
        ((Invocation.reg ⟨"lab01", "r1", none, none, "t1"⟩ 0).run Store.init)
        = cexC2 := by decide
    exact e ▸ h2
  · unfold chainStep
    decide

/-- C2 (amended): in every reachable store state, every handler moves
command statuses only forward along pending → sent → done: `register`
leaves the command table untouched, `poll` changes statuses only from
pending to sent, `create_command` at most appends one pending command,
`report_result` changes statuses only from pending or sent to done, and
no status outside pending/sent/done is ever present.  (The amendment
forced by the counterexample: `report_result` may move a still-pending
command directly to done, skipping sent; no transition ever returns to
pending and no other status value is assigned.) -/
theorem C2_amended_status_forward (s : Store) (hr : Reachable s) :
    (∀ (d : RegisterIn) (n : Nat), (register s d n).1.commands = s.commands)
    ∧ (∀ (pid : String) (tok : Option String) (n : Nat),
        List.Forall₂ (fun a b => a.id = b.id
            ∧ (b.status = a.status ∨ (a.status = "pending" ∧ b.status = "sent")))
          s.commands (poll s pid tok n).1.commands)
    ∧ (∀ (ak pid ct : String) (pl : Option Payload) (xk : Option String),
        (create_command ak s pid ct pl xk).1.commands = s.commands
        ∨ ∃ c, (create_command ak s pid ct pl xk).1.commands = s.commands ++ [c]
            ∧ c.status = "pending")
    ∧ (∀ (cid : Nat) (r : Payload) (tok : Option String),
        List.Forall₂ (fun a b => a.id = b.id
            ∧ (b.status = a.status
               ∨ ((a.status = "pending" ∨ a.status = "sent") ∧ b.status = "done")))
          s.commands (report_result s cid r tok).1.commands)
    ∧ (∀ c ∈ s.commands, c.status = "pending" ∨ c.status = "sent" ∨ c.status = "done") := by
  have hwf := reachable_wf s hr
  refine ⟨?_, ?_, ?_, ?_, hwf.statuses⟩
  · intro d n
    cases hf : s.computers.find? (fun c => c.pc_id == d.pc_id) with
    | some row => simp only [register, hf]
    | none => simp only [register, hf]
  · intro pid tok n
    cases hf : s.computers.find? (fun c => c.pc_id == pid) with
    | none =>
        simp only [poll, hf]
        exact List.forall₂_same.2 (fun a _ => ⟨rfl, Or.inl rfl⟩)
    | some row =>
      by_cases ht : tok ≠ some row.token
      · simp only [poll, hf, if_pos ht]
        exact List.forall₂_same.2 (fun a _ => ⟨rfl, Or.inl rfl⟩)
      · simp only [poll, hf, if_neg ht]
        rw [foldl_markSent_eq]
        apply forall₂_map_self
        intro a ha
        refine ⟨(sentMark_id _ _).symm, ?_⟩
        unfold sentMark
        by_cases hin : a.id ∈ (s.commands.filter
            (fun c => c.pc_id == pid && c.status == "pending")).map (fun r => r.id)
        · rw [if_pos hin]
          right
          obtain ⟨r, hrmem, hrid⟩ := List.mem_map.1 hin
          have hrs := List.mem_filter.1 hrmem
          have heq : r = a := List.inj_on_of_nodup_map hwf.idsNodup hrs.1 ha hrid
          have hp := hrs.2
          rw [heq] at hp
          have hpend : a.status = "pending" := by
            simp only [Bool.and_eq_true, beq_iff_eq] at hp
            exact hp.2
          exact ⟨hpend, rfl⟩
        · rw [if_neg hin]
          left
          rfl
  · intro ak pid ct pl xk
    by_cases hk : xk ≠ some ak
    · left
      simp only [create_command, if_pos hk]
    · cases hf : s.computers.find? (fun c => c.pc_id == pid) with
      | none =>
          left
          simp only [create_command, if_neg hk, hf]
      | some row =>
          right
          exact ⟨⟨s.nextCmdId, pid, ct, pl.getD [], "pending"⟩,
            by simp only [create_command, if_neg hk, hf], rfl⟩
  · intro cid r tok
    cases hf : s.commands.find? (fun c => c.id == cid) with
    | none =>
        simp only [report_result, hf]
        exact List.forall₂_same.2 (fun a _ => ⟨rfl, Or.inl rfl⟩)
    | some row =>
      cases hpc : s.computers.find? (fun c => c.pc_id == row.pc_id) with
      | none =>
          simp only [report_result, hf, hpc]
          exact List.forall₂_same.2 (fun a _ => ⟨rfl, Or.inl rfl⟩)
      | some pc =>
        by_cases ht : tok ≠ some pc.token
        · simp only [report_result, hf, hpc, if_pos ht]
          exact List.forall₂_same.2 (fun a _ => ⟨rfl, Or.inl rfl⟩)
        · simp only [report_result, hf, hpc, if_neg ht]
          apply forall₂_map_self
          intro a ha
          refine ⟨(doneUpdate_id _ _).symm, ?_⟩
          unfold doneUpdate
          by_cases hid : a.id = cid
          · have hcond : (a.id == cid) = true := by simp [hid]
            rw [if_pos hcond]
            rcases hwf.statuses a ha with h | h | h
            · exact Or.inr ⟨Or.inl h, rfl⟩
            · exact Or.inr ⟨Or.inr h, rfl⟩
            · exact Or.inl (by rw [h])
          · have hcond : ¬ ((a.id == cid) = true) := by simp [hid]
            rw [if_neg hcond]
            exact Or.inl rfl

theorem C2_amended_witness :
    (∀ (d : RegisterIn) (n : Nat),
        (register Store.init d n).1.commands = Store.init.commands)
    ∧ (∀ (pid : String) (tok : Option String) (n : Nat),
        List.Forall₂ (fun a b => a.id = b.id
            ∧ (b.status = a.status ∨ (a.status = "pending" ∧ b.status = "sent")))
          Store.init.commands (poll Store.init pid tok n).1.commands)
    ∧ (∀ (ak pid ct : String) (pl : Option Payload) (xk : Option String),
        (create_command ak Store.init pid ct pl xk).1.commands = Store.init.commands
        ∨ ∃ c, (create_command ak Store.init pid ct pl xk).1.commands
              = Store.init.commands ++ [c]
            ∧ c.status = "pending")
    ∧ (∀ (cid : Nat) (r : Payload) (tok : Option String),
        List.Forall₂ (fun a b => a.id = b.id
            ∧ (b.status = a.status
               ∨ ((a.status = "pending" ∨ a.status = "sent") ∧ b.status = "done")))
          Store.init.commands (report_result Store.init cid r tok).1.commands)
    ∧ (∀ c ∈ Store.init.commands,
        c.status = "pending" ∨ c.status = "sent" ∨ c.status = "done") :=
  C2_amended_status_forward Store.init Reachable.init
